import Mathlib

/-!
Verification of the Nuclide repository slice: the ASL log-level conversion,
the JSX undeclared-identifier computation, the generated service proxy,
the DiffViewModel state machine, and the RemoteConnection registry.
Each definition is a shallow embedding of the corresponding source function.
-/

namespace Asl

/-- Output levels of nuclide-output (`Level` in output/lib/types). -/
inductive Level
| error
| warning
| log
| info
| debug
deriving DecidableEq

/-- A structured ASL record: the fields `createMessage` reads. -/
structure AslRecord where
  Message : String
  Level : String
deriving DecidableEq

/-- The message format nuclide-output wants. -/
structure Message where
  text : String
  level : Level
deriving DecidableEq

/-- Embedding of `getLevel` (switch with fall-through on the ASL level string);
the `default` branch throws `Invalid ASL level`. -/
def getLevel (level : String) : Except String Level :=
  if level = "0" ∨ level = "1" ∨ level = "2" ∨ level = "3" then
    Except.ok Level.error
  else if level = "4" then
    Except.ok Level.warning
  else if level = "5" then
    Except.ok Level.log
  else if level = "6" then
    Except.ok Level.info
  else if level = "7" then
    Except.ok Level.debug
  else
    Except.error ("Invalid ASL level: " ++ level)

/-- Embedding of `createMessage`: builds `{text, level}`, propagating a
thrown `getLevel` error. -/
def createMessage (record : AslRecord) : Except String Message :=
  (getLevel record.Level).map (fun lv => { text := record.Message, level := lv })

end Asl

namespace JsxIds

/-- JS `Set.add`: appends unless already present (insertion order kept). -/
def setAdd (s : List String) (x : String) : List String :=
  if x ∈ s then s else s ++ [x]

/-- Embedding of `getUndeclaredJSXIdentifiers`. The helpers
`getDeclaredIdentifiers` and `getJSXIdentifiers` are external modules, so the
embedding takes them as function arguments; the body is the loop of the
source: for each jsx identifier not in the declared set, add it. -/
def getUndeclaredJSXIdentifiers {Collection SourceOptions : Type}
    (getDeclaredIdentifiers : Collection → SourceOptions → List String)
    (getJSXIdentifiers : Collection → List String)
    (root : Collection) (options : SourceOptions) : List String :=
  let declaredIdentifiers := getDeclaredIdentifiers root options
  let jsxIdentifiers := getJSXIdentifiers root
  jsxIdentifiers.foldl
    (fun undeclared id =>
      if ¬ (id ∈ declaredIdentifiers) then setAdd undeclared id else undeclared)
    []

theorem mem_setAdd (s : List String) (y x : String) :
    x ∈ setAdd s y ↔ x ∈ s ∨ x = y := by
  unfold setAdd
  split
  · constructor
    · exact fun h => Or.inl h
    · rintro (h | rfl)
      · exact h
      · assumption
  · simp [List.mem_append]

theorem foldl_setAdd_mem (declared jsx acc : List String) (x : String) :
    x ∈ jsx.foldl
      (fun undeclared id =>
        if ¬ (id ∈ declared) then setAdd undeclared id else undeclared)
      acc
    ↔ x ∈ acc ∨ (x ∈ jsx ∧ x ∉ declared) := by
  induction jsx generalizing acc with
  | nil => simp
  | cons hd tl ih =>
    simp only [List.foldl_cons, List.mem_cons]
    by_cases hdec : hd ∈ declared
    · rw [if_neg (by simpa using hdec), ih]
      constructor
      · rintro (h | h)
        · exact Or.inl h
        · exact Or.inr ⟨Or.inr h.1, h.2⟩
      · rintro (h | ⟨rfl | hmem, hnd⟩)
        · exact Or.inl h
        · exact absurd hdec hnd
        · exact Or.inr ⟨hmem, hnd⟩
    · rw [if_pos (by simpa using hdec), ih, mem_setAdd]
      constructor
      · rintro ((h | rfl) | h)
        · exact Or.inl h
        · exact Or.inr ⟨Or.inl rfl, hdec⟩
        · exact Or.inr ⟨Or.inr h.1, h.2⟩
      · rintro (h | ⟨rfl | hmem, hnd⟩)
        · exact Or.inl (Or.inl h)
        · exact Or.inl (Or.inr rfl)
        · exact Or.inr ⟨hmem, hnd⟩

end JsxIds

/-- C9: for every ASL record, `createMessage` yields `{text := Message}` with
level `error` for Level strings 0 through 3, `warning` for 4, `log` for 5,
`info` for 6, `debug` for 7, and throws `Invalid ASL level` on every other
Level string. -/
theorem C9_createMessage_levels (record : Asl.AslRecord) :
    ((record.Level = "0" ∨ record.Level = "1" ∨ record.Level = "2" ∨ record.Level = "3") →
      Asl.createMessage record =
        Except.ok { text := record.Message, level := Asl.Level.error }) ∧
    (record.Level = "4" →
      Asl.createMessage record =
        Except.ok { text := record.Message, level := Asl.Level.warning }) ∧
    (record.Level = "5" →
      Asl.createMessage record =
        Except.ok { text := record.Message, level := Asl.Level.log }) ∧
    (record.Level = "6" →
      Asl.createMessage record =
        Except.ok { text := record.Message, level := Asl.Level.info }) ∧
    (record.Level = "7" →
      Asl.createMessage record =
        Except.ok { text := record.Message, level := Asl.Level.debug }) ∧
    (record.Level ∉ (["0", "1", "2", "3", "4", "5", "6", "7"] : List String) →
      Asl.createMessage record =
        Except.error ("Invalid ASL level: " ++ record.Level)) := by
  refine ⟨?_, ?_, ?_, ?_, ?_, ?_⟩ <;> intro h
  · rcases h with h | h | h | h <;>
      simp [Asl.createMessage, Asl.getLevel, h, Except.map]
  · simp [Asl.createMessage, Asl.getLevel, h, Except.map]
  · simp [Asl.createMessage, Asl.getLevel, h, Except.map]
  · simp [Asl.createMessage, Asl.getLevel, h, Except.map]
  · simp [Asl.createMessage, Asl.getLevel, h, Except.map]
  · simp only [List.mem_cons, List.mem_singleton, not_or] at h
    obtain ⟨h0, h1, h2, h3, h4, h5, h6, h7⟩ := h
    simp [Asl.createMessage, Asl.getLevel, h0, h1, h2, h3, h4, h5, h6, h7, Except.map]

/-- C9 witness: concrete evaluations through `C9_createMessage_levels`. -/
theorem C9_createMessage_levels_witness :
    Asl.createMessage { Message := "hello", Level := "4" } =
      Except.ok { text := "hello", level := Asl.Level.warning } ∧
    Asl.createMessage { Message := "boom", Level := "9" } =
      Except.error ("Invalid ASL level: " ++ "9") :=
  ⟨(C9_createMessage_levels { Message := "hello", Level := "4" }).2.1 rfl,
   (C9_createMessage_levels { Message := "boom", Level := "9" }).2.2.2.2.2 (by decide)⟩

/-- C10: an identifier is in the set computed by `getUndeclaredJSXIdentifiers`
iff it is a JSX identifier of the root and not a declared identifier, for
every choice of the two helper functions, AST collection and options. -/
theorem C10_undeclared_is_set_difference {Collection SourceOptions : Type}
    (getDeclaredIdentifiers : Collection → SourceOptions → List String)
    (getJSXIdentifiers : Collection → List String)
    (root : Collection) (options : SourceOptions) (x : String) :
    x ∈ JsxIds.getUndeclaredJSXIdentifiers getDeclaredIdentifiers getJSXIdentifiers root options
    ↔ x ∈ getJSXIdentifiers root ∧ x ∉ getDeclaredIdentifiers root options := by
  unfold JsxIds.getUndeclaredJSXIdentifiers
  rw [JsxIds.foldl_setAdd_mem]
  simp

namespace DiffView

/-- `DiffMode` from the diff-view constants. -/
inductive DiffMode
| BROWSE_MODE
| COMMIT_MODE
| PUBLISH_MODE
deriving DecidableEq

/-- `CommitMode` from the diff-view constants. -/
inductive CommitMode
| COMMIT
| AMEND
deriving DecidableEq

/-- `CommitModeState` from the diff-view constants. -/
inductive CommitModeState
| READY
| LOADING_COMMIT_MESSAGE
| AWAITING_COMMIT
deriving DecidableEq

/-- `PublishMode` from the diff-view constants. -/
inductive PublishMode
| CREATE
| UPDATE
deriving DecidableEq

/-- `PublishModeState` from the diff-view constants. -/
inductive PublishModeState
| READY
| LOADING_PUBLISH_MESSAGE
| AWAITING_PUBLISH
deriving DecidableEq

/-- The fields of `RevisionInfo` the diff-view model reads. -/
structure RevisionInfo where
  description : String
  hash : String
  bookmarks : List String
deriving DecidableEq

/-- `RevisionsState`: the revisions list reported by a repository stack. -/
structure RevisionsState where
  revisions : List RevisionInfo
deriving DecidableEq

/-- The `State` record of `DiffViewModel`; the three file-change maps are kept
abstract in the map-value type `μ` (their contents come from the repository
stacks, which are external). -/
structure State (μ : Type) where
  viewMode : DiffMode
  commitMessage : Option String
  commitMode : CommitMode
  commitModeState : CommitModeState
  publishMessage : Option String
  publishMode : PublishMode
  publishModeState : PublishModeState
  headRevision : Option RevisionInfo
  dirtyFileChanges : μ
  commitMergeFileChanges : μ
  compareFileChanges : μ
deriving DecidableEq

/-- The `_state` the constructor installs; `emptyMap` is `new Map()`. -/
def initialState {μ : Type} (emptyMap : μ) : State μ :=
  { viewMode := DiffMode.BROWSE_MODE
    commitMessage := none
    commitMode := CommitMode.COMMIT
    commitModeState := CommitModeState.READY
    publishMessage := none
    publishMode := PublishMode.CREATE
    publishModeState := PublishModeState.READY
    headRevision := none
    dirtyFileChanges := emptyMap
    commitMergeFileChanges := emptyMap
    compareFileChanges := emptyMap }

/-- `UPDATE_REVISION_TEMPLATE` constant (the empty string). -/
def UPDATE_REVISION_TEMPLATE : String := ""

/-- `convertNewlines` on the character list: replaces every backslash-n pair
with a literal newline, scanning left to right. -/
def convertNewlinesChars : List Char → List Char
  | [] => []
  | '\\' :: 'n' :: rest => '\n' :: convertNewlinesChars rest
  | c :: rest => c :: convertNewlinesChars rest

/-- `convertNewlines` of the source, over `String`. -/
def convertNewlines (message : String) : String :=
  ⟨convertNewlinesChars message.toList⟩

/-- `String.prototype.indexOf(needle) !== -1`: substring containment test,
checking a needle match at each position of the haystack. -/
def containsSub (needle : List Char) : List Char → Bool
  | [] => decide (needle = [])
  | c :: rest => needle.isPrefixOf (c :: rest) || containsSub needle rest

/-- `_updateCompareChangedStatus`: null-ish arguments default to the current
state maps; `compareFileChanges` mirrors the dirty maps in commit mode and the
commit-merge maps otherwise. -/
def updateCompareChangedStatus {μ : Type}
    (dirtyArg commitMergeArg : Option μ) (s : State μ) : State μ :=
  let dirtyFileChanges := dirtyArg.getD s.dirtyFileChanges
  let commitMergeFileChanges := commitMergeArg.getD s.commitMergeFileChanges
  let compareFileChanges :=
    if s.viewMode = DiffMode.COMMIT_MODE then dirtyFileChanges
    else commitMergeFileChanges
  { s with
    dirtyFileChanges := dirtyFileChanges
    commitMergeFileChanges := commitMergeFileChanges
    compareFileChanges := compareFileChanges }

/-- `_updateDirtyChangedStatus`: the union of the stacks' dirty file changes
is computed externally and passed in as `dirtyFileChanges`. -/
def updateDirtyChangedStatus {μ : Type} (dirtyFileChanges : μ) (s : State μ) : State μ :=
  updateCompareChangedStatus (some dirtyFileChanges) none s

/-- `_updateCommitMergeFileChanges`: the union of the stacks' commit-merge
file changes is computed externally and passed in. -/
def updateCommitMergeFileChanges {μ : Type} (commitMergeFileChanges : μ) (s : State μ) : State μ :=
  updateCompareChangedStatus none (some commitMergeFileChanges) s

/-- `setPublishMessage`. -/
def setPublishMessage {μ : Type} (publishMessage : String) (s : State μ) : State μ :=
  { s with publishMessage := some publishMessage }

/-- `_loadCommitModeState`: sets `LOADING_COMMIT_MESSAGE`, then awaits the
externally supplied load result (template message for COMMIT mode, latest
commit message for AMEND; an error leaves the message undefined and is
notified), and in the `finally` block stores the message and `READY`. -/
def loadCommitModeState {μ : Type}
    (loadResult : Except String (Option String)) (s : State μ) : State μ :=
  let s1 := { s with commitModeState := CommitModeState.LOADING_COMMIT_MESSAGE }
  let commitMessage : Option String :=
    match loadResult with
    | Except.ok m =>
      match s1.commitMode with
      | CommitMode.COMMIT => m.map convertNewlines
      | CommitMode.AMEND => m
    | Except.error _ => none
  { s1 with
    commitMessage := commitMessage
    commitModeState := CommitModeState.READY }

/-- `_loadPublishModeState`: resets to CREATE/LOADING with null message and
head revision, then reads the revisions state; throws when it is null or has
no revisions (second component carries a thrown error, the state keeps the
already-stored first update); otherwise selects the last revision as head and
sets UPDATE with the empty template message exactly when the head description
contains `Differential Revision:`, else CREATE with the head description. -/
def loadPublishModeState {μ : Type}
    (revisionsState : Option RevisionsState) (s : State μ) :
    State μ × Option String :=
  let s1 := { s with
    publishMode := PublishMode.CREATE
    publishModeState := PublishModeState.LOADING_PUBLISH_MESSAGE
    publishMessage := none
    headRevision := none }
  match revisionsState with
  | none => (s1, some "Cannot Load Publish View: No active file or repository")
  | some rs =>
    match h : rs.revisions with
    | [] => (s1, some "Diff View Error: Zero Revisions")
    | hd :: tl =>
      let headRevision := (hd :: tl).getLast (by simp)
      let headMessage := headRevision.description
      let hasPhabricatorRevision :=
        containsSub ("Differential Revision:".toList) headMessage.toList
      ({ s1 with
          publishMode :=
            if hasPhabricatorRevision then PublishMode.UPDATE else PublishMode.CREATE
          publishModeState := PublishModeState.READY
          publishMessage :=
            some (if hasPhabricatorRevision then UPDATE_REVISION_TEMPLATE else headMessage)
          headRevision := some headRevision },
       none)

/-- The environment outcomes the asynchronous loads depend on: the commit
message load result and the active revisions state. -/
structure Env where
  commitLoad : Except String (Option String)
  revisionsState : Option RevisionsState

/-- `_loadModeState`: dispatches on the view mode; a `_loadPublishModeState`
error is caught by `notifyInternalError`, leaving its partial state. -/
def loadModeState {μ : Type} (env : Env) (s : State μ) : State μ :=
  match s.viewMode with
  | DiffMode.COMMIT_MODE => loadCommitModeState env.commitLoad s
  | DiffMode.PUBLISH_MODE => (loadPublishModeState env.revisionsState s).1
  | DiffMode.BROWSE_MODE => s

/-- `setViewMode`: no-op on an unchanged mode; otherwise stores the mode,
recomputes the compare status and loads the mode state. -/
def setViewMode {μ : Type} (env : Env) (viewMode : DiffMode) (s : State μ) : State μ :=
  if viewMode = s.viewMode then s
  else
    loadModeState env
      (updateCompareChangedStatus none none { s with viewMode := viewMode })

/-- `setCommitMode`: stores the mode, then loads the commit message. -/
def setCommitMode {μ : Type}
    (commitLoad : Except String (Option String)) (commitMode : CommitMode)
    (s : State μ) : State μ :=
  loadCommitModeState commitLoad { s with commitMode := commitMode }

/-- `publishDiff`: returns the final state, the list of states passed to
`_setState` in order, and the internal-error notifications. The `try` block
(the awaited publish steps) either succeeds or throws, per `outcome`; a throw
is notified and swallowed, and the `finally` block always stores READY with
the same publish message. -/
def publishDiff {μ : Type}
    (publishMessage : String) (outcome : Except String Unit) (s : State μ) :
    State μ × List (State μ) × List String :=
  let s1 := { s with
    publishMessage := some publishMessage
    publishModeState := PublishModeState.AWAITING_PUBLISH }
  let notifications :=
    match outcome with
    | Except.ok _ => []
    | Except.error e => [e]
  let s2 := { s1 with
    publishMessage := some publishMessage
    publishModeState := PublishModeState.READY }
  (s2, [s1, s2], notifications)

/-- A JS exception as `commit` observes it: only `e.stdout` is read, which is
`undefined` for non-process errors. -/
structure JsErr where
  stdout : Option String
deriving DecidableEq

/-- The `detail` string of the commit error notification. -/
def errDetail (e : JsErr) : String :=
  "Details: " ++ e.stdout.getD "undefined"

/-- Calls `commit` makes on the active repository stack. -/
inductive RepoAction
| commitCall (message : String)
| amendCall (message : String)
| getRevisionsState
deriving DecidableEq

/-- Atom notifications `commit` raises. -/
inductive Notification
| addSuccess (title : String)
| addError (title detail : String)
deriving DecidableEq

/-- `commit`: stores the message and AWAITING_COMMIT, then tries the commit or
amend call on the active stack (its outcome supplied as `outcome`; a missing
stack makes the `invariant` throw before any call). Any throw is caught once:
an error notification is raised, the state returns to READY and the method
returns. On success a success notification is raised and the revisions
refresh is triggered, with the state left AWAITING_COMMIT. -/
def commit {μ : Type}
    (message : String) (activeStack : Option Unit) (outcome : Except JsErr Unit)
    (s : State μ) : State μ × List Notification × List RepoAction :=
  let s1 := { s with
    commitMessage := some message
    commitModeState := CommitModeState.AWAITING_COMMIT }
  match activeStack with
  | none =>
    ({ s1 with commitModeState := CommitModeState.READY },
     [Notification.addError "Error creating commit" (errDetail { stdout := none })],
     [])
  | some _ =>
    let call :=
      match s1.commitMode with
      | CommitMode.COMMIT => RepoAction.commitCall message
      | CommitMode.AMEND => RepoAction.amendCall message
    let successTitle :=
      match s1.commitMode with
      | CommitMode.COMMIT => "Commit created"
      | CommitMode.AMEND => "Commit amended"
    match outcome with
    | Except.ok _ =>
      (s1, [Notification.addSuccess successTitle], [call, RepoAction.getRevisionsState])
    | Except.error e =>
      ({ s1 with commitModeState := CommitModeState.READY },
       [Notification.addError "Error creating commit" (errDetail e)],
       [call])

/-- The C3 invariant: `compareFileChanges` mirrors `dirtyFileChanges` in
commit mode and `commitMergeFileChanges` in every other view mode. -/
def CompareInvariant {μ : Type} (s : State μ) : Prop :=
  s.compareFileChanges =
    if s.viewMode = DiffMode.COMMIT_MODE then s.dirtyFileChanges
    else s.commitMergeFileChanges

end DiffView

namespace DiffView

theorem containsSub_iff_infix (needle haystack : List Char) :
    containsSub needle haystack = true ↔ needle <:+: haystack := by
  induction haystack with
  | nil =>
    simp [containsSub, List.infix_nil]
  | cons c rest ih =>
    simp [containsSub, ih, List.infix_cons_iff, List.isPrefixOf_iff_prefix]

theorem inv_updateCompare {μ : Type} (od om : Option μ) (s : State μ) :
    CompareInvariant (updateCompareChangedStatus od om s) := by
  simp only [CompareInvariant, updateCompareChangedStatus]

theorem inv_initial {μ : Type} (emptyMap : μ) :
    CompareInvariant (initialState (μ := μ) emptyMap) := by
  simp [CompareInvariant, initialState]

theorem inv_setPublishMessage {μ : Type} (msg : String) (s : State μ)
    (h : CompareInvariant s) : CompareInvariant (setPublishMessage msg s) := by
  simpa [CompareInvariant, setPublishMessage] using h

theorem inv_loadCommit {μ : Type} (loadResult : Except String (Option String))
    (s : State μ) (h : CompareInvariant s) :
    CompareInvariant (loadCommitModeState loadResult s) := by
  simpa [CompareInvariant, loadCommitModeState] using h

theorem inv_loadPublish {μ : Type} (revisionsState : Option RevisionsState)
    (s : State μ) (h : CompareInvariant s) :
    CompareInvariant (loadPublishModeState revisionsState s).1 := by
  cases revisionsState with
  | none => simpa [CompareInvariant, loadPublishModeState] using h
  | some rs =>
    rcases rs with ⟨revs⟩
    cases revs with
    | nil => simpa [CompareInvariant, loadPublishModeState] using h
    | cons hd tl => simpa [CompareInvariant, loadPublishModeState] using h

theorem inv_loadModeState {μ : Type} (env : Env) (s : State μ)
    (h : CompareInvariant s) : CompareInvariant (loadModeState env s) := by
  rcases hv : s.viewMode with _ | _ | _ <;>
    simp only [loadModeState, hv]
  · exact h
  · exact inv_loadCommit env.commitLoad s h
  · exact inv_loadPublish env.revisionsState s h

theorem inv_setViewMode {μ : Type} (env : Env) (viewMode : DiffMode) (s : State μ)
    (h : CompareInvariant s) : CompareInvariant (setViewMode env viewMode s) := by
  unfold setViewMode
  split
  · exact h
  · exact inv_loadModeState env _ (inv_updateCompare none none _)

theorem inv_setCommitMode {μ : Type} (commitLoad : Except String (Option String))
    (commitMode : CommitMode) (s : State μ) (h : CompareInvariant s) :
    CompareInvariant (setCommitMode commitLoad commitMode s) := by
  apply inv_loadCommit
  simpa [CompareInvariant] using h

theorem inv_commit {μ : Type} (message : String) (activeStack : Option Unit)
    (outcome : Except JsErr Unit) (s : State μ) (h : CompareInvariant s) :
    CompareInvariant (commit message activeStack outcome s).1 := by
  cases activeStack with
  | none => simpa [CompareInvariant, commit] using h
  | some u =>
    cases outcome with
    | ok v => simpa [CompareInvariant, commit] using h
    | error e => simpa [CompareInvariant, commit] using h

theorem inv_publishDiff {μ : Type} (publishMessage : String)
    (outcome : Except String Unit) (s : State μ) (h : CompareInvariant s) :
    CompareInvariant (publishDiff publishMessage outcome s).1 := by
  simpa [CompareInvariant, publishDiff] using h

end DiffView

/-- C3: the invariant "`compareFileChanges` equals `dirtyFileChanges` in
COMMIT_MODE and `commitMergeFileChanges` in every other view mode" holds for
the constructor's initial state and is preserved by every state-changing
public operation of `DiffViewModel` (dirty/commit-merge change updates,
`setPublishMessage`, `setViewMode`, `setCommitMode`, mode-state loading,
`commit`, `publishDiff`), for every environment outcome. -/
theorem C3_compare_invariant {μ : Type} (emptyMap newDirty newMerge : μ)
    (env : DiffView.Env) (viewMode : DiffView.DiffMode) (msg : String)
    (commitMode : DiffView.CommitMode) (commitLoad : Except String (Option String))
    (publishOutcome : Except String Unit) (commitOutcome : Except DiffView.JsErr Unit)
    (activeStack : Option Unit) (s : DiffView.State μ)
    (h : DiffView.CompareInvariant s) :
    DiffView.CompareInvariant (DiffView.initialState emptyMap) ∧
    DiffView.CompareInvariant (DiffView.updateDirtyChangedStatus newDirty s) ∧
    DiffView.CompareInvariant (DiffView.updateCommitMergeFileChanges newMerge s) ∧
    DiffView.CompareInvariant (DiffView.setPublishMessage msg s) ∧
    DiffView.CompareInvariant (DiffView.setViewMode env viewMode s) ∧
    DiffView.CompareInvariant (DiffView.setCommitMode commitLoad commitMode s) ∧
    DiffView.CompareInvariant (DiffView.loadModeState env s) ∧
    DiffView.CompareInvariant (DiffView.commit msg activeStack commitOutcome s).1 ∧
    DiffView.CompareInvariant (DiffView.publishDiff msg publishOutcome s).1 :=
  ⟨DiffView.inv_initial emptyMap,
   DiffView.inv_updateCompare _ _ _,
   DiffView.inv_updateCompare _ _ _,
   DiffView.inv_setPublishMessage msg s h,
   DiffView.inv_setViewMode env viewMode s h,
   DiffView.inv_setCommitMode commitLoad commitMode s h,
   DiffView.inv_loadModeState env s h,
   DiffView.inv_commit msg activeStack commitOutcome s h,
   DiffView.inv_publishDiff msg publishOutcome s h⟩

/-- C3 witness: the invariant after `setViewMode` into COMMIT_MODE from the
initial state, via `C3_compare_invariant` at concrete inputs. -/
theorem C3_compare_invariant_witness :
    DiffView.CompareInvariant
      (DiffView.setViewMode { commitLoad := Except.ok none, revisionsState := none }
        DiffView.DiffMode.COMMIT_MODE (DiffView.initialState (0 : Nat))) :=
  (C3_compare_invariant (0 : Nat) 1 2 { commitLoad := Except.ok none, revisionsState := none }
    DiffView.DiffMode.COMMIT_MODE "m" DiffView.CommitMode.COMMIT (Except.ok none)
    (Except.ok ()) (Except.ok ()) none (DiffView.initialState (0 : Nat))
    (DiffView.inv_initial 0)).2.2.2.2.1

/-- C4: when the repository commit or amend call throws during
`DiffViewModel.commit`, exactly one error notification is raised via
`atom.notifications.addError`, `commitModeState` returns to READY, the
repository operation was attempted exactly once (no retry), and the method
returns normally. -/
theorem C4_commit_error_handling {μ : Type} (message : String) (e : DiffView.JsErr)
    (s : DiffView.State μ) :
    (DiffView.commit message (some ()) (Except.error e) s).1.commitModeState =
      DiffView.CommitModeState.READY ∧
    (DiffView.commit message (some ()) (Except.error e) s).2.1 =
      [DiffView.Notification.addError "Error creating commit" (DiffView.errDetail e)] ∧
    (DiffView.commit message (some ()) (Except.error e) s).2.2 =
      [match s.commitMode with
       | DiffView.CommitMode.COMMIT => DiffView.RepoAction.commitCall message
       | DiffView.CommitMode.AMEND => DiffView.RepoAction.amendCall message] := by
  cases hcm : s.commitMode <;> simp [DiffView.commit, hcm]

/-- C5: `publishDiff` first stores AWAITING_PUBLISH with the given publish
message, and on both the success and the throw path of the awaited publish
step the final stored state has publishModeState READY with the same
message. -/
theorem C5_publishDiff_always_ready {μ : Type} (publishMessage : String)
    (outcome : Except String Unit) (s : DiffView.State μ) :
    ((DiffView.publishDiff publishMessage outcome s).2.1.head?.map
        (fun t => (t.publishModeState, t.publishMessage)))
      = some (DiffView.PublishModeState.AWAITING_PUBLISH, some publishMessage) ∧
    (DiffView.publishDiff publishMessage outcome s).1.publishModeState =
      DiffView.PublishModeState.READY ∧
    (DiffView.publishDiff publishMessage outcome s).1.publishMessage =
      some publishMessage ∧
    (DiffView.publishDiff publishMessage outcome s).2.1.getLast? =
      some (DiffView.publishDiff publishMessage outcome s).1 :=
  ⟨rfl, rfl, rfl, rfl⟩

/-- C6: on a non-empty revisions list, `_loadPublishModeState` takes the last
revision as head revision, ends READY, and selects UPDATE with the empty
template message exactly when the head description contains the substring
`Differential Revision:`; otherwise CREATE with the head description as the
publish message, and no error is thrown. -/
theorem C6_loadPublishModeState {μ : Type} (s : DiffView.State μ)
    (rs : DiffView.RevisionsState) (h : rs.revisions ≠ []) :
    ∃ headRev, rs.revisions.getLast? = some headRev ∧
      (DiffView.loadPublishModeState (some rs) s).2 = none ∧
      (DiffView.loadPublishModeState (some rs) s).1.headRevision = some headRev ∧
      (DiffView.loadPublishModeState (some rs) s).1.publishModeState =
        DiffView.PublishModeState.READY ∧
      ((DiffView.loadPublishModeState (some rs) s).1.publishMode =
          DiffView.PublishMode.UPDATE ↔
        ("Differential Revision:".toList <:+: headRev.description.toList)) ∧
      (("Differential Revision:".toList <:+: headRev.description.toList) →
        (DiffView.loadPublishModeState (some rs) s).1.publishMessage = some "") ∧
      (¬ ("Differential Revision:".toList <:+: headRev.description.toList) →
        (DiffView.loadPublishModeState (some rs) s).1.publishMode =
          DiffView.PublishMode.CREATE ∧
        (DiffView.loadPublishModeState (some rs) s).1.publishMessage =
          some headRev.description) := by
  obtain ⟨revs⟩ := rs
  rcases revs with _ | ⟨hd, tl⟩
  · exact absurd rfl h
  · refine ⟨(hd :: tl).getLast (by simp), List.getLast?_eq_getLast _ _, ?_⟩
    by_cases hinf : ("Differential Revision:".toList <:+:
        ((hd :: tl).getLast (by simp)).description.toList)
    all_goals simp only [String.toList] at hinf
    · refine ⟨rfl, ?_, ?_, ?_, ?_, ?_⟩ <;>
        simp [DiffView.loadPublishModeState, DiffView.containsSub_iff_infix,
          DiffView.UPDATE_REVISION_TEMPLATE, hinf]
    · refine ⟨rfl, ?_, ?_, ?_, ?_, ?_⟩ <;>
        simp [DiffView.loadPublishModeState, DiffView.containsSub_iff_infix,
          DiffView.UPDATE_REVISION_TEMPLATE, hinf]

/-- C6 witness: a single revision whose description carries a Differential
Revision line, evaluated through `C6_loadPublishModeState`. -/
theorem C6_loadPublishModeState_witness :
    (DiffView.loadPublishModeState
        (some { revisions :=
          [{ description := "Differential Revision: D42"
             hash := "h1"
             bookmarks := [] }] })
        (DiffView.initialState (0 : Nat))).1.publishModeState =
      DiffView.PublishModeState.READY := by
  obtain ⟨hr, hlast, hok, hhead, hready, hiff, hpos, hneg⟩ :=
    C6_loadPublishModeState (DiffView.initialState (0 : Nat))
      { revisions :=
        [{ description := "Differential Revision: D42"
           hash := "h1"
           bookmarks := [] }] }
      (by simp)
  exact hready

namespace ServiceProxy

/-- The `location` object attached to a marshaled argument type. -/
structure SourceLocation where
  type : String
  fileName : String
  line : Nat
deriving DecidableEq

/-- The named-type descriptor passed to `_client.marshal`. -/
structure NamedType where
  location : SourceLocation
  kind : String
  name : String
deriving DecidableEq

/-- The `_client` object of a generated proxy, abstract in the argument value
type `V`, the marshaled-value type `M` and the remote-call result type `R`:
`marshal` serializes one argument against a type descriptor and
`callRemoteFunction` performs the remote call (qualified name, return kind,
marshaled arguments). -/
structure RpcClient (V M R : Type) where
  marshal : V → NamedType → M
  callRemoteFunction : String → String → List M → R

/-- The functions of the generated `UnionTypes` proxy module. -/
structure RemoteModule (V R : Type) where
  UnionFunc : V → V → R
  ObjectUnionFunc : V → R
  TypeFunc : V → R
  MDUFunc : V → R

/-- Embedding of the generated `UnionTypes.proxy` module body: each function
marshals its arguments with the declared named type and source location and
applies `callRemoteFunction` to the qualified name, the return kind `void`
and the marshaled argument list (`Promise.all`/`then` sequencing is modelled
as direct application). -/
def remoteModule {V M R : Type} (client : RpcClient V M R) : RemoteModule V R :=
  { UnionFunc := fun arg0 arg1 =>
      client.callRemoteFunction "UnionTypes/UnionFunc" "void"
        [client.marshal arg0
          { location := { type := "source", fileName := "UnionTypes.def", line := 6 }
            kind := "named", name := "SSU" },
         client.marshal arg1
          { location := { type := "source", fileName := "UnionTypes.def", line := 6 }
            kind := "named", name := "MixedUnion" }]
    ObjectUnionFunc := fun arg0 =>
      client.callRemoteFunction "UnionTypes/ObjectUnionFunc" "void"
        [client.marshal arg0
          { location := { type := "source", fileName := "UnionTypes.def", line := 20 }
            kind := "named", name := "Location" }]
    TypeFunc := fun arg0 =>
      client.callRemoteFunction "UnionTypes/TypeFunc" "void"
        [client.marshal arg0
          { location := { type := "source", fileName := "UnionTypes.def", line := 111 }
            kind := "named", name := "Type" }]
    MDUFunc := fun arg0 =>
      client.callRemoteFunction "UnionTypes/MDUFunc" "void"
        [client.marshal arg0
          { location := { type := "source", fileName := "UnionTypes.def", line := 116 }
            kind := "named", name := "MultipleDiscriminantUnion" }] }

end ServiceProxy

/-- C2: for every client and arguments, each generated proxy function equals
exactly one `callRemoteFunction` call on the qualified name
`UnionTypes/<functionName>` with return kind `void`, applied to the list of
the arguments marshaled with their declared named types and source
locations, and nothing else. -/
theorem C2_proxy_marshals_then_calls {V M R : Type}
    (client : ServiceProxy.RpcClient V M R) (a0 a1 b0 c0 d0 : V) :
    (ServiceProxy.remoteModule client).UnionFunc a0 a1 =
      client.callRemoteFunction "UnionTypes/UnionFunc" "void"
        [client.marshal a0
          { location := { type := "source", fileName := "UnionTypes.def", line := 6 }
            kind := "named", name := "SSU" },
         client.marshal a1
          { location := { type := "source", fileName := "UnionTypes.def", line := 6 }
            kind := "named", name := "MixedUnion" }] ∧
    (ServiceProxy.remoteModule client).ObjectUnionFunc b0 =
      client.callRemoteFunction "UnionTypes/ObjectUnionFunc" "void"
        [client.marshal b0
          { location := { type := "source", fileName := "UnionTypes.def", line := 20 }
            kind := "named", name := "Location" }] ∧
    (ServiceProxy.remoteModule client).TypeFunc c0 =
      client.callRemoteFunction "UnionTypes/TypeFunc" "void"
        [client.marshal c0
          { location := { type := "source", fileName := "UnionTypes.def", line := 111 }
            kind := "named", name := "Type" }] ∧
    (ServiceProxy.remoteModule client).MDUFunc d0 =
      client.callRemoteFunction "UnionTypes/MDUFunc" "void"
        [client.marshal d0
          { location := { type := "source", fileName := "UnionTypes.def", line := 116 }
            kind := "named", name := "MultipleDiscriminantUnion" }] :=
  ⟨rfl, rfl, rfl, rfl⟩

namespace Remote

/-- Modelled from the spec: the implementation of `RemoteConnection`
(`lib/RemoteConnection.js`) is missing from the sources; only its test file
is present. Per the spec, the RemoteConnection registry "maps hostname+path
to live connection objects": a live connection carries the hostname of its
server and the path of its root (initial working) directory; `id`
distinguishes live objects. -/
structure RemoteConnection where
  hostname : List Char
  rootPath : List Char
  id : Nat
deriving DecidableEq

/-- Modelled from the spec: a path `q` is within a root directory `p` when it
equals `p` or is a file path beneath it (`p + '/def/abc.txt'`). -/
def pathWithinDir (p q : List Char) : Bool :=
  decide (q = p) || (p ++ ['/']).isPrefixOf q

/-- Modelled from the spec: `RemoteConnection.getByHostnameAndPath` looks up
the registry of live connections for one whose hostname matches and whose
root directory contains the given path; `undefined` when none does. -/
def getByHostnameAndPath (registry : List RemoteConnection)
    (hostname p : List Char) : Option RemoteConnection :=
  registry.find?
    (fun c => decide (c.hostname = hostname) && pathWithinDir c.rootPath p)

/-- Modelled from the spec: parsing a `nuclide://host:port/path` remote URI
into its hostname and path; the port digits between the colon and the first
slash are dropped. Returns `none` on a malformed URI. -/
def parseRemoteUri (uri : List Char) : Option (List Char × List Char) :=
  if ("nuclide://".toList).isPrefixOf uri then
    let rest := uri.drop ("nuclide://".toList).length
    let hostname := rest.takeWhile (fun c => !(c == ':'))
    let afterHost := rest.dropWhile (fun c => !(c == ':'))
    match afterHost with
    | [] => none
    | _ :: afterColon =>
      some (hostname, afterColon.dropWhile (fun c => !(c == '/')))
  else none

/-- Modelled from the spec: `RemoteConnection.getForUri` parses the remote
URI and delegates to `getByHostnameAndPath`. -/
def getForUri (registry : List RemoteConnection) (uri : List Char) :
    Option RemoteConnection :=
  match parseRemoteUri uri with
  | none => none
  | some hp => getByHostnameAndPath registry hp.1 hp.2

theorem takeWhile_append_stop (p : Char → Bool) (l t : List Char) (c : Char)
    (hl : ∀ a ∈ l, p a = true) (hc : p c = false) :
    (l ++ c :: t).takeWhile p = l := by
  induction l with
  | nil => simp [List.takeWhile, hc]
  | cons a l ih =>
    have ha : p a = true := hl a (List.mem_cons_self a l)
    simp only [List.cons_append, List.takeWhile_cons, ha, if_true]
    rw [ih (fun b hb => hl b (List.mem_cons_of_mem a hb))]

theorem dropWhile_append_stop (p : Char → Bool) (l t : List Char) (c : Char)
    (hl : ∀ a ∈ l, p a = true) (hc : p c = false) :
    (l ++ c :: t).dropWhile p = c :: t := by
  induction l with
  | nil => simp [List.dropWhile, hc]
  | cons a l ih =>
    have ha : p a = true := hl a (List.mem_cons_self a l)
    simp only [List.cons_append, List.dropWhile_cons, ha, if_true]
    exact ih (fun b hb => hl b (List.mem_cons_of_mem a hb))

theorem dropWhile_append_all (p : Char → Bool) (l t : List Char)
    (hl : ∀ a ∈ l, p a = true) :
    (l ++ t).dropWhile p = t.dropWhile p := by
  induction l with
  | nil => simp
  | cons a l ih =>
    have ha : p a = true := hl a (List.mem_cons_self a l)
    simp only [List.cons_append, List.dropWhile_cons, ha, if_true]
    exact ih (fun b hb => hl b (List.mem_cons_of_mem a hb))

theorem parseRemoteUri_round (H N Q : List Char)
    (hH : ':' ∉ H) (hN : ∀ c ∈ N, c.isDigit = true)
    (hQ : Q = [] ∨ Q.head? = some '/') :
    parseRemoteUri ("nuclide://".toList ++ H ++ ':' :: (N ++ Q)) = some (H, Q) := by
  have hpre : ("nuclide://".toList).isPrefixOf
      ("nuclide://".toList ++ H ++ ':' :: (N ++ Q)) = true := by
    rw [List.isPrefixOf_iff_prefix, List.append_assoc]
    exact List.prefix_append _ _
  have hdrop : ("nuclide://".toList ++ H ++ ':' :: (N ++ Q)).drop
      ("nuclide://".toList).length = H ++ ':' :: (N ++ Q) := by
    rw [List.append_assoc]
    exact List.drop_left _ _
  have hHp : ∀ a ∈ H, (!(a == ':')) = true := by
    intro a ha
    have : a ≠ ':' := fun he => hH (he ▸ ha)
    simp [this]
  have htake : (H ++ ':' :: (N ++ Q)).takeWhile (fun c => !(c == ':')) = H :=
    takeWhile_append_stop _ H (N ++ Q) ':' hHp (by simp)
  have hdropw : (H ++ ':' :: (N ++ Q)).dropWhile (fun c => !(c == ':'))
      = ':' :: (N ++ Q) :=
    dropWhile_append_stop _ H (N ++ Q) ':' hHp (by simp)
  have hNp : ∀ a ∈ N, (!(a == '/')) = true := by
    intro a ha
    have hne : a ≠ '/' := by
      intro he
      have := hN a ha
      rw [he] at this
      simp [Char.isDigit] at this
    simp [hne]
  have hpath : (N ++ Q).dropWhile (fun c => !(c == '/')) = Q := by
    rw [dropWhile_append_all _ N Q hNp]
    rcases hQ with rfl | hq
    · rfl
    · rcases Q with _ | ⟨q, Q⟩
      · rfl
      · simp only [List.head?_cons, Option.some.injEq] at hq
        subst hq
        simp [List.dropWhile_cons]
  unfold parseRemoteUri
  rw [hpre]
  simp only [if_true, hdrop, htake, hdropw, hpath]

end Remote

/-- C1: a registered connection with hostname `H` and root directory `P` is
returned by `getByHostnameAndPath(H, Q)` whenever `Q` equals `P` or lies
beneath `P` (and no other registered connection also matches), and the lookup
returns `undefined` whenever every registered connection has a different
hostname or a root directory not containing `Q`. -/
theorem C1_getByHostnameAndPath_lookup (registry : List Remote.RemoteConnection)
    (conn : Remote.RemoteConnection) (hostname q : List Char) :
    ((conn ∈ registry ∧ conn.hostname = hostname ∧
        Remote.pathWithinDir conn.rootPath q = true ∧
        (∀ c ∈ registry, c.hostname = hostname →
          Remote.pathWithinDir c.rootPath q = true → c = conn)) →
      Remote.getByHostnameAndPath registry hostname q = some conn) ∧
    ((∀ c ∈ registry, c.hostname ≠ hostname ∨ Remote.pathWithinDir c.rootPath q = false) →
      Remote.getByHostnameAndPath registry hostname q = none) := by
  constructor
  · rintro ⟨hmem, hhost, hwithin, huniq⟩
    have hsome : (Remote.getByHostnameAndPath registry hostname q).isSome := by
      rw [Remote.getByHostnameAndPath, List.find?_isSome]
      exact ⟨conn, hmem, by simp [hhost, hwithin]⟩
    obtain ⟨c, hc⟩ := Option.isSome_iff_exists.mp hsome
    have hcmem : c ∈ registry := List.mem_of_find?_eq_some hc
    have hcp := List.find?_some hc
    simp only [Bool.and_eq_true, decide_eq_true_eq] at hcp
    rw [Remote.getByHostnameAndPath] at hc ⊢
    rw [hc, huniq c hcmem hcp.1 hcp.2]
  · intro hnone
    rw [Remote.getByHostnameAndPath, List.find?_eq_none]
    intro c hcmem
    rcases hnone c hcmem with hh | hp
    · simp [hh]
    · simp [hp]

/-- C1 witness: the registry of the RemoteConnection test (hostname
`foo.nuclide.com`, root `/home/foo/test`), exercised on the four test cases
through `C1_getByHostnameAndPath_lookup`. -/
theorem C1_getByHostnameAndPath_lookup_witness :
    Remote.getByHostnameAndPath
      [{ hostname := "foo.nuclide.com".toList, rootPath := "/home/foo/test".toList, id := 0 }]
      ("foo.nuclide.com".toList) ("/home/foo/test".toList) =
      some { hostname := "foo.nuclide.com".toList, rootPath := "/home/foo/test".toList, id := 0 } ∧
    Remote.getByHostnameAndPath
      [{ hostname := "foo.nuclide.com".toList, rootPath := "/home/foo/test".toList, id := 0 }]
      ("foo.nuclide.com".toList) ("/home/foo/test/def/abc.txt".toList) =
      some { hostname := "foo.nuclide.com".toList, rootPath := "/home/foo/test".toList, id := 0 } ∧
    Remote.getByHostnameAndPath
      [{ hostname := "foo.nuclide.com".toList, rootPath := "/home/foo/test".toList, id := 0 }]
      ("foo.nuclide.com".toList) ("/home/bar/test".toList) = none ∧
    Remote.getByHostnameAndPath
      [{ hostname := "foo.nuclide.com".toList, rootPath := "/home/foo/test".toList, id := 0 }]
      ("bar.nuclide.com".toList) ("/home/foo/test".toList) = none :=
  ⟨(C1_getByHostnameAndPath_lookup _ _ _ _).1
      ⟨by decide, by decide, by decide, by decide⟩,
   (C1_getByHostnameAndPath_lookup _ _ _ _).1
      ⟨by decide, by decide, by decide, by decide⟩,
   (C1_getByHostnameAndPath_lookup _
      { hostname := "foo.nuclide.com".toList, rootPath := "/home/foo/test".toList, id := 0 }
      _ _).2 (by decide),
   (C1_getByHostnameAndPath_lookup _
      { hostname := "foo.nuclide.com".toList, rootPath := "/home/foo/test".toList, id := 0 }
      _ _).2 (by decide)⟩

/-- C8: the port component of a `nuclide://host:port/path` URI has no effect:
for every registry, hostname (colon-free), port digit string and path
(empty or slash-led), `getForUri` on the assembled URI returns exactly
`getByHostnameAndPath` of the hostname and path. -/
theorem C8_getForUri_port_insensitive (registry : List Remote.RemoteConnection)
    (H N Q : List Char) (hH : ':' ∉ H) (hN : ∀ c ∈ N, c.isDigit = true)
    (hQ : Q = [] ∨ Q.head? = some '/') :
    Remote.getForUri registry ("nuclide://".toList ++ H ++ ':' :: (N ++ Q)) =
      Remote.getByHostnameAndPath registry H Q := by
  rw [Remote.getForUri, Remote.parseRemoteUri_round H N Q hH hN hQ]

/-- C8 witness: the URI of the RemoteConnection test
(`nuclide://foo.nuclide.com:8919/home/foo/test`), through
`C8_getForUri_port_insensitive`. -/
theorem C8_getForUri_port_insensitive_witness :
    Remote.getForUri
      [{ hostname := "foo.nuclide.com".toList, rootPath := "/home/foo/test".toList, id := 0 }]
      ("nuclide://".toList ++ "foo.nuclide.com".toList ++ ':' ::
        ("8919".toList ++ "/home/foo/test".toList)) =
      Remote.getByHostnameAndPath
        [{ hostname := "foo.nuclide.com".toList, rootPath := "/home/foo/test".toList, id := 0 }]
        ("foo.nuclide.com".toList) ("/home/foo/test".toList) :=
  C8_getForUri_port_insensitive _ _ _ _ (by decide) (by decide) (by decide)

namespace UpdateRepos

/-- Side effects of `_updateRepositories`: disposing a removed repository's
stack and subscriptions, and creating a stack for a new repository. -/
inductive UREvent
| disposeStack (repo stack : Nat)
| disposeSubscriptions (repo subs : Nat)
| createStack (repo stack : Nat)
deriving DecidableEq

/-- `true` exactly on `createStack` events for repository `r`. -/
def isCreateFor (r : Nat) : UREvent → Bool
  | UREvent.createStack q _ => decide (q = r)
  | UREvent.disposeStack _ _ => false
  | UREvent.disposeSubscriptions _ _ => false

/-- JS `Map.delete` on an association list with unique keys. -/
def mapDelete (k : Nat) (m : List (Nat × Nat)) : List (Nat × Nat) :=
  m.filter (fun e => decide (e.1 ≠ k))

/-- `new Set(list)` iteration order: deduplication keeping the first
occurrence of each element. -/
def insertionDedup : List Nat → List Nat
  | [] => []
  | a :: l => a :: insertionDedup (l.filter (fun x => decide (x ≠ a)))
termination_by l => l.length
decreasing_by
  simp only [List.length_cons, Nat.lt_succ_iff]
  exact List.length_filter_le _ _

/-- The first loop of `_updateRepositories` over the `_repositoryStacks`
entries (repository ↦ stack id): entries of still-present repositories are
kept; otherwise the stack is disposed and its entry deleted, and the
repository's subscriptions — whose presence the `invariant` asserts (`none`
models that throw) — are disposed and deleted from
`_repositorySubscriptions`. Returns the two maps and the events in order. -/
def removePhase (repos : List Nat) :
    List (Nat × Nat) → List (Nat × Nat) →
    Option (List (Nat × Nat) × List (Nat × Nat) × List UREvent)
  | [], subs => some ([], subs, [])
  | (r, sid) :: rest, subs =>
    if r ∈ repos then
      match removePhase repos rest subs with
      | none => none
      | some (keep, subs2, evs) => some ((r, sid) :: keep, subs2, evs)
    else
      match subs.lookup r with
      | none => none
      | some subId =>
        match removePhase repos rest (mapDelete r subs) with
        | none => none
        | some (keep, subs2, evs) =>
          some (keep, subs2,
            UREvent.disposeStack r sid :: UREvent.disposeSubscriptions r subId :: evs)

/-- The second loop of `_updateRepositories` (`_createRepositoryStack` per
repository not yet in the map): a fresh stack id is drawn from `counter` and
recorded in both maps (JS `Map.set` appends in insertion order). -/
def addPhase : List Nat → List (Nat × Nat) → List (Nat × Nat) → Nat →
    List (Nat × Nat) × List (Nat × Nat) × Nat × List UREvent
  | [], stackMap, subs, counter => (stackMap, subs, counter, [])
  | r :: rest, stackMap, subs, counter =>
    if (stackMap.lookup r).isSome then addPhase rest stackMap subs counter
    else
      let res :=
        addPhase rest (stackMap ++ [(r, counter)]) (subs ++ [(r, counter)]) (counter + 1)
      (res.1, res.2.1, res.2.2.1, UREvent.createStack r counter :: res.2.2.2)

/-- `_updateRepositories`: the current hg repositories form a set (first
occurrence kept), removed repositories are disposed, new ones created. -/
def updateRepositories (repoList : List Nat) (stackMap subs : List (Nat × Nat))
    (counter : Nat) :
    Option (List (Nat × Nat) × List (Nat × Nat) × Nat × List UREvent) :=
  let repositories := insertionDedup repoList
  match removePhase repositories stackMap subs with
  | none => none
  | some (keep, subs2, evs1) =>
    let res := addPhase repositories keep subs2 counter
    some (res.1, res.2.1, res.2.2.1, evs1 ++ res.2.2.2)

theorem mem_insertionDedup (l : List Nat) (x : Nat) :
    x ∈ insertionDedup l ↔ x ∈ l := by
  induction l using insertionDedup.induct with
  | case1 => simp [insertionDedup]
  | case2 a l ih =>
    rw [insertionDedup]
    by_cases hx : x = a
    · subst hx
      simp
    · simp only [List.mem_cons, ih, List.mem_filter, decide_eq_true_eq]
      constructor
      · rintro (rfl | ⟨hm, _⟩)
        · exact Or.inl rfl
        · exact Or.inr hm
      · rintro (rfl | hm)
        · exact Or.inl rfl
        · exact Or.inr ⟨hm, hx⟩

theorem nodup_insertionDedup (l : List Nat) : (insertionDedup l).Nodup := by
  induction l using insertionDedup.induct with
  | case1 => simp [insertionDedup]
  | case2 a l ih =>
    rw [insertionDedup]
    refine List.nodup_cons.mpr ⟨?_, ih⟩
    intro hmem
    rw [mem_insertionDedup] at hmem
    have h2 := (List.mem_filter.mp hmem).2
    simp at h2

theorem lookup_cons_eq (k v r : Nat) (m : List (Nat × Nat)) :
    ((k, v) :: m).lookup r = if r == k then some v else m.lookup r := by
  by_cases h : r = k
  · simp [List.lookup, h]
  · have hb : (r == k) = false := by simpa using h
    simp [List.lookup, hb]

theorem lookup_isSome_iff (m : List (Nat × Nat)) (r : Nat) :
    (m.lookup r).isSome ↔ r ∈ m.map Prod.fst := by
  induction m with
  | nil => simp [List.lookup]
  | cons e m ih =>
    obtain ⟨k, v⟩ := e
    rw [lookup_cons_eq]
    by_cases h : r = k <;> simp [h, ih]

theorem lookup_append_some (m w : List (Nat × Nat)) (k v : Nat)
    (h : m.lookup k = some v) : (m ++ w).lookup k = some v := by
  induction m with
  | nil => simp [List.lookup] at h
  | cons e m ih =>
    obtain ⟨a, b⟩ := e
    rw [lookup_cons_eq] at h
    rw [List.cons_append, lookup_cons_eq]
    by_cases hk : k = a
    · rw [if_pos (by simpa using hk)] at h ⊢
      exact h
    · rw [if_neg (by simpa using hk)] at h ⊢
      exact ih h

theorem lookup_append_none (m w : List (Nat × Nat)) (k : Nat)
    (h : m.lookup k = none) : (m ++ w).lookup k = w.lookup k := by
  induction m with
  | nil => simp
  | cons e m ih =>
    obtain ⟨a, b⟩ := e
    rw [lookup_cons_eq] at h
    rw [List.cons_append, lookup_cons_eq]
    by_cases hk : k = a
    · rw [if_pos (by simpa using hk)] at h
      exact absurd h (by simp)
    · rw [if_neg (by simpa using hk)] at h ⊢
      exact ih h

theorem lookup_mapDelete_ne (k r : Nat) (m : List (Nat × Nat)) (h : r ≠ k) :
    (mapDelete k m).lookup r = m.lookup r := by
  induction m with
  | nil => simp [mapDelete]
  | cons e m ih =>
    obtain ⟨a, b⟩ := e
    by_cases ha : a = k
    · rw [mapDelete, List.filter_cons]
      simp only [ha, decide_eq_true_eq]
      rw [if_neg (by simp)]
      rw [lookup_cons_eq, if_neg (by simpa [ha] using h)]
      exact ih
    · rw [mapDelete, List.filter_cons]
      rw [if_pos (by simpa using ha)]
      rw [lookup_cons_eq, lookup_cons_eq]
      by_cases hr : r = a
      · simp [hr]
      · rw [if_neg (by simpa using hr), if_neg (by simpa using hr)]
        exact ih

theorem lookup_filter_mem (repos : List Nat) (m : List (Nat × Nat)) (r : Nat) :
    ((m.filter (fun e => decide (e.1 ∈ repos))).lookup r) =
      if r ∈ repos then m.lookup r else none := by
  induction m with
  | nil => simp [List.lookup]
  | cons e m ih =>
    obtain ⟨a, b⟩ := e
    rw [List.filter_cons]
    by_cases ha : a ∈ repos
    · rw [if_pos (by simpa using ha), lookup_cons_eq]
      by_cases hr : r = a
      · subst hr
        rw [if_pos (by simp), if_pos ha, lookup_cons_eq, if_pos (by simp)]
      · rw [if_neg (by simpa using hr), ih]
        by_cases hrep : r ∈ repos
        · rw [if_pos hrep, if_pos hrep, lookup_cons_eq, if_neg (by simpa using hr)]
        · rw [if_neg hrep, if_neg hrep]
    · rw [if_neg (by simpa using ha), ih]
      by_cases hrep : r ∈ repos
      · rw [if_pos hrep, if_pos hrep, lookup_cons_eq]
        have hr : ¬ r = a := fun he => ha (he ▸ hrep)
        rw [if_neg (by simpa using hr)]
      · rw [if_neg hrep, if_neg hrep]

end UpdateRepos

namespace UpdateRepos

theorem removePhase_spec (repos : List Nat) (stackMap subsMap : List (Nat × Nat))
    (hnd : (stackMap.map Prod.fst).Nodup)
    (hsub : ∀ r, (stackMap.lookup r).isSome → (subsMap.lookup r).isSome) :
    ∃ subs2 evs,
      removePhase repos stackMap subsMap =
        some (stackMap.filter (fun e => decide (e.1 ∈ repos)), subs2, evs) ∧
      (∀ r, (∃ sid, UREvent.disposeStack r sid ∈ evs) ↔
          ((stackMap.lookup r).isSome ∧ r ∉ repos)) ∧
      (∀ r, (∃ i, UREvent.disposeSubscriptions r i ∈ evs) ↔
          ((stackMap.lookup r).isSome ∧ r ∉ repos)) ∧
      (∀ r, evs.countP (isCreateFor r) = 0) := by
  induction stackMap generalizing subsMap with
  | nil =>
    refine ⟨subsMap, [], rfl, ?_, ?_, ?_⟩ <;> intro r <;> simp [List.lookup]
  | cons e rest ih =>
    obtain ⟨r0, sid⟩ := e
    have hnd2 : (rest.map Prod.fst).Nodup := (List.nodup_cons.mp (by simpa using hnd)).2
    have hr0 : r0 ∉ rest.map Prod.fst := (List.nodup_cons.mp (by simpa using hnd)).1
    by_cases hmem : r0 ∈ repos
    · have hsub2 : ∀ r, (rest.lookup r).isSome → (subsMap.lookup r).isSome := by
        intro r hr
        apply hsub
        rw [lookup_cons_eq]
        by_cases h : r = r0
        · rw [if_pos (by simpa using h)]
          simp
        · rw [if_neg (by simpa using h)]
          exact hr
      obtain ⟨subs2, evs, heq, hds, hdsub, hcnt⟩ := ih subsMap hnd2 hsub2
      refine ⟨subs2, evs, ?_, ?_, ?_, hcnt⟩
      · simp only [removePhase, if_pos hmem, heq, List.filter_cons]
        rw [if_pos (by simpa using hmem)]
      · intro r
        rw [hds r, lookup_cons_eq]
        by_cases h : r = r0
        · subst h
          rw [if_pos (by simp)]
          simp [hmem]
        · rw [if_neg (by simpa using h)]
      · intro r
        rw [hdsub r, lookup_cons_eq]
        by_cases h : r = r0
        · subst h
          rw [if_pos (by simp)]
          simp [hmem]
        · rw [if_neg (by simpa using h)]
    · have hself : ((r0, sid) :: rest).lookup r0 = some sid := by
        rw [lookup_cons_eq, if_pos (by simp)]
      have hsubs0 : (subsMap.lookup r0).isSome := hsub r0 (by simp [hself])
      obtain ⟨subId, hsubId⟩ := Option.isSome_iff_exists.mp hsubs0
      have hrest_none : rest.lookup r0 = none := by
        rcases hlr : rest.lookup r0 with _ | v
        · rfl
        · exact absurd ((lookup_isSome_iff rest r0).mp (by simp [hlr])) hr0
      have hsub2 : ∀ r, (rest.lookup r).isSome →
          ((mapDelete r0 subsMap).lookup r).isSome := by
        intro r hr
        have hne : r ≠ r0 := by
          intro he
          subst he
          rw [hrest_none] at hr
          simp at hr
        rw [lookup_mapDelete_ne r0 r subsMap hne]
        apply hsub
        rw [lookup_cons_eq, if_neg (by simpa using hne)]
        exact hr
      obtain ⟨subs2, evs, heq, hds, hdsub, hcnt⟩ := ih (mapDelete r0 subsMap) hnd2 hsub2
      refine ⟨subs2,
        UREvent.disposeStack r0 sid :: UREvent.disposeSubscriptions r0 subId :: evs,
        ?_, ?_, ?_, ?_⟩
      · simp only [removePhase, if_neg hmem, hsubId, heq, List.filter_cons]
        rw [if_neg (by simpa using hmem)]
      · intro r
        by_cases h : r = r0
        · subst h
          constructor
          · intro _
            exact ⟨by simp [hself], hmem⟩
          · intro _
            exact ⟨sid, by simp⟩
        · rw [lookup_cons_eq, if_neg (by simpa using h)]
          rw [← hds r]
          simp [h]
      · intro r
        by_cases h : r = r0
        · subst h
          constructor
          · intro _
            exact ⟨by simp [hself], hmem⟩
          · intro _
            exact ⟨subId, by simp⟩
        · rw [lookup_cons_eq, if_neg (by simpa using h)]
          rw [← hdsub r]
          simp [h]
      · intro r
        simp [List.countP_cons, isCreateFor, hcnt r]

theorem addPhase_spec (repos : List Nat) :
    ∀ (stackMap subsMap : List (Nat × Nat)) (counter : Nat),
      (stackMap.map Prod.fst).Nodup →
      ((addPhase repos stackMap subsMap counter).1.map Prod.fst).Nodup ∧
      (∀ r, ((addPhase repos stackMap subsMap counter).1.lookup r).isSome ↔
          ((stackMap.lookup r).isSome ∨ r ∈ repos)) ∧
      (∀ r s, stackMap.lookup r = some s →
          (addPhase repos stackMap subsMap counter).1.lookup r = some s) ∧
      (∀ r, (addPhase repos stackMap subsMap counter).2.2.2.countP (isCreateFor r) =
          if (stackMap.lookup r).isSome ∨ r ∉ repos then 0 else 1) ∧
      (∀ e ∈ (addPhase repos stackMap subsMap counter).2.2.2,
          ∃ q c, e = UREvent.createStack q c) := by
  induction repos with
  | nil =>
    intro stackMap subsMap counter hnd
    refine ⟨hnd, ?_, ?_, ?_, ?_⟩
    · intro r
      simp [addPhase]
    · intro r s hr
      simpa [addPhase] using hr
    · intro r
      simp [addPhase]
    · intro e he
      simp [addPhase] at he
  | cons r rest ih =>
    intro stackMap subsMap counter hnd
    by_cases hs : (stackMap.lookup r).isSome
    · have heq : addPhase (r :: rest) stackMap subsMap counter =
          addPhase rest stackMap subsMap counter := by
        simp only [addPhase, if_pos hs]
      obtain ⟨ihnd, iha, ihc, ihd, ihe⟩ := ih stackMap subsMap counter hnd
      rw [heq]
      refine ⟨ihnd, ?_, ihc, ?_, ihe⟩
      · intro q
        rw [iha q]
        by_cases hq : q = r
        · subst hq
          simp [hs]
        · simp [List.mem_cons, hq]
      · intro q
        rw [ihd q]
        by_cases hq : q = r
        · subst hq
          simp [hs]
        · by_cases h1 : (stackMap.lookup q).isSome
          · simp [h1]
          · by_cases h2 : q ∈ rest
            · simp [h1, h2, List.mem_cons, hq]
            · simp [h1, h2, List.mem_cons, hq]
    · have hmemkeys : r ∉ stackMap.map Prod.fst :=
        fun hm => hs ((lookup_isSome_iff _ _).mpr hm)
      have hnd2 : ((stackMap ++ [(r, counter)]).map Prod.fst).Nodup := by
        rw [List.map_append]
        simp [List.nodup_append, hnd, hmemkeys, List.disjoint_singleton]
      have happ : ∀ q, ((stackMap ++ [(r, counter)]).lookup q).isSome ↔
          ((stackMap.lookup q).isSome ∨ q = r) := by
        intro q
        rw [lookup_isSome_iff, List.map_append, List.mem_append, lookup_isSome_iff]
        simp
      obtain ⟨ihnd, iha, ihc, ihd, ihe⟩ :=
        ih (stackMap ++ [(r, counter)]) (subsMap ++ [(r, counter)]) (counter + 1) hnd2
      have heq : addPhase (r :: rest) stackMap subsMap counter =
          ((addPhase rest (stackMap ++ [(r, counter)]) (subsMap ++ [(r, counter)])
              (counter + 1)).1,
           (addPhase rest (stackMap ++ [(r, counter)]) (subsMap ++ [(r, counter)])
              (counter + 1)).2.1,
           (addPhase rest (stackMap ++ [(r, counter)]) (subsMap ++ [(r, counter)])
              (counter + 1)).2.2.1,
           UREvent.createStack r counter ::
             (addPhase rest (stackMap ++ [(r, counter)]) (subsMap ++ [(r, counter)])
              (counter + 1)).2.2.2) := by
        simp only [addPhase, if_neg hs]
      rw [heq]
      refine ⟨ihnd, ?_, ?_, ?_, ?_⟩
      · intro q
        rw [iha q, happ q]
        by_cases hq : q = r
        · subst hq
          simp
        · simp [List.mem_cons, hq]
      · intro q s hq
        exact ihc q s (lookup_append_some _ _ q s hq)
      · intro q
        by_cases hq : q = r
        · subst hq
          have hins : ((stackMap ++ [(q, counter)]).lookup q).isSome :=
            (happ q).mpr (Or.inr rfl)
          simp [List.countP_cons, isCreateFor, ihd q, hins, hs]
        · have hqr : ((stackMap ++ [(r, counter)]).lookup q).isSome ↔
              (stackMap.lookup q).isSome := by
            rw [happ q]
            simp [hq]
          have hrq : ¬ r = q := fun he => hq he.symm
          by_cases h1 : (stackMap.lookup q).isSome
          · simp [List.countP_cons, isCreateFor, ihd q, hqr, h1, hrq]
          · by_cases h2 : q ∈ rest
            · have hnl : ¬ ((stackMap ++ [(r, counter)]).lookup q).isSome :=
                fun hx => h1 (hqr.mp hx)
              simp [List.countP_cons, isCreateFor, ihd q, hnl, h1, h2,
                List.mem_cons, hq, hrq]
            · have hnl : ¬ ((stackMap ++ [(r, counter)]).lookup q).isSome :=
                fun hx => h1 (hqr.mp hx)
              simp [List.countP_cons, isCreateFor, ihd q, hnl, h1, h2,
                List.mem_cons, hq, hrq]
      · intro e he
        rcases List.mem_cons.mp he with rfl | hrest
        · exact ⟨r, counter, rfl⟩
        · exact ihe e hrest

end UpdateRepos

/-- C7: `_updateRepositories` succeeds and afterwards the key set of
`_repositoryStacks` is exactly the current set of hg repositories: the stack
and the subscriptions of every repository no longer present are disposed
(one dispose event each), surviving repositories keep their stack, exactly
one stack is created for each newly present repository, and no repository
maps to more than one stack (the key list stays duplicate-free). -/
theorem C7_updateRepositories (repoList : List Nat)
    (stackMap subsMap : List (Nat × Nat)) (counter : Nat)
    (hnd : (stackMap.map Prod.fst).Nodup)
    (hsub : ∀ r ∈ stackMap.map Prod.fst, (subsMap.lookup r).isSome) :
    ∃ stacks2 subs2 counter2 evs,
      UpdateRepos.updateRepositories repoList stackMap subsMap counter =
        some (stacks2, subs2, counter2, evs) ∧
      (∀ r, (stacks2.lookup r).isSome ↔ r ∈ repoList) ∧
      (stacks2.map Prod.fst).Nodup ∧
      (∀ r s, stackMap.lookup r = some s → r ∈ repoList →
          stacks2.lookup r = some s) ∧
      (∀ r, (∃ sid, UpdateRepos.UREvent.disposeStack r sid ∈ evs) ↔
          ((stackMap.lookup r).isSome ∧ r ∉ repoList)) ∧
      (∀ r, (∃ i, UpdateRepos.UREvent.disposeSubscriptions r i ∈ evs) ↔
          ((stackMap.lookup r).isSome ∧ r ∉ repoList)) ∧
      (∀ r, evs.countP (UpdateRepos.isCreateFor r) =
          if r ∈ repoList ∧ (stackMap.lookup r).isNone then 1 else 0) := by
  have hmemrepos : ∀ r, r ∈ UpdateRepos.insertionDedup repoList ↔ r ∈ repoList :=
    fun r => UpdateRepos.mem_insertionDedup repoList r
  have hsub2 : ∀ r, (stackMap.lookup r).isSome → (subsMap.lookup r).isSome :=
    fun r hr => hsub r ((UpdateRepos.lookup_isSome_iff _ _).mp hr)
  obtain ⟨subs2, evs1, heq1, hds1, hdsub1, hcnt1⟩ :=
    UpdateRepos.removePhase_spec (UpdateRepos.insertionDedup repoList)
      stackMap subsMap hnd hsub2
  have hsb : List.Sublist
      ((stackMap.filter
        (fun e => decide (e.1 ∈ UpdateRepos.insertionDedup repoList))).map Prod.fst)
      (stackMap.map Prod.fst) :=
    (List.filter_sublist stackMap).map Prod.fst
  have hkeepnd := List.Nodup.sublist hsb hnd
  obtain ⟨ihnd, iha, ihc, ihd, ihe⟩ :=
    UpdateRepos.addPhase_spec (UpdateRepos.insertionDedup repoList)
      (stackMap.filter (fun e => decide (e.1 ∈ UpdateRepos.insertionDedup repoList)))
      subs2 counter hkeepnd
  have hueq : UpdateRepos.updateRepositories repoList stackMap subsMap counter =
      some ((UpdateRepos.addPhase (UpdateRepos.insertionDedup repoList)
          (stackMap.filter
            (fun e => decide (e.1 ∈ UpdateRepos.insertionDedup repoList)))
          subs2 counter).1,
        (UpdateRepos.addPhase (UpdateRepos.insertionDedup repoList)
          (stackMap.filter
            (fun e => decide (e.1 ∈ UpdateRepos.insertionDedup repoList)))
          subs2 counter).2.1,
        (UpdateRepos.addPhase (UpdateRepos.insertionDedup repoList)
          (stackMap.filter
            (fun e => decide (e.1 ∈ UpdateRepos.insertionDedup repoList)))
          subs2 counter).2.2.1,
        evs1 ++ (UpdateRepos.addPhase (UpdateRepos.insertionDedup repoList)
          (stackMap.filter
            (fun e => decide (e.1 ∈ UpdateRepos.insertionDedup repoList)))
          subs2 counter).2.2.2) := by
    simp only [UpdateRepos.updateRepositories, heq1]
  refine ⟨_, _, _, _, hueq, ?_, ihnd, ?_, ?_, ?_, ?_⟩
  · intro r
    rw [iha r, UpdateRepos.lookup_filter_mem]
    by_cases hr : r ∈ UpdateRepos.insertionDedup repoList
    · simp [hr, (hmemrepos r).mp hr]
    · have hnl : r ∉ repoList := fun hc => hr ((hmemrepos r).mpr hc)
      simp [hr, hnl]
  · intro r s hsome hmem
    have hr : r ∈ UpdateRepos.insertionDedup repoList := (hmemrepos r).mpr hmem
    apply ihc
    rw [UpdateRepos.lookup_filter_mem, if_pos hr]
    exact hsome
  · intro r
    constructor
    · rintro ⟨sid, hmem2⟩
      rcases List.mem_append.mp hmem2 with h1 | h2
      · have hx := (hds1 r).mp ⟨sid, h1⟩
        exact ⟨hx.1, fun hc => hx.2 ((hmemrepos r).mpr hc)⟩
      · obtain ⟨q, c, hqc⟩ := ihe _ h2
        simp at hqc
    · rintro ⟨hsome, hnotin⟩
      have hnr : r ∉ UpdateRepos.insertionDedup repoList :=
        fun hc => hnotin ((hmemrepos r).mp hc)
      obtain ⟨sid, hsid⟩ := (hds1 r).mpr ⟨hsome, hnr⟩
      exact ⟨sid, List.mem_append.mpr (Or.inl hsid)⟩
  · intro r
    constructor
    · rintro ⟨i, hmem2⟩
      rcases List.mem_append.mp hmem2 with h1 | h2
      · have hx := (hdsub1 r).mp ⟨i, h1⟩
        exact ⟨hx.1, fun hc => hx.2 ((hmemrepos r).mpr hc)⟩
      · obtain ⟨q, c, hqc⟩ := ihe _ h2
        simp at hqc
    · rintro ⟨hsome, hnotin⟩
      have hnr : r ∉ UpdateRepos.insertionDedup repoList :=
        fun hc => hnotin ((hmemrepos r).mp hc)
      obtain ⟨i, hi⟩ := (hdsub1 r).mpr ⟨hsome, hnr⟩
      exact ⟨i, List.mem_append.mpr (Or.inl hi)⟩
  · intro r
    rw [List.countP_append, hcnt1 r, ihd r, UpdateRepos.lookup_filter_mem]
    rcases hl : stackMap.lookup r with _ | v
    · by_cases hr : r ∈ UpdateRepos.insertionDedup repoList
      · simp [hr, (hmemrepos r).mp hr]
      · have hnl : r ∉ repoList := fun hc => hr ((hmemrepos r).mpr hc)
        simp [hr, hnl]
    · by_cases hr : r ∈ UpdateRepos.insertionDedup repoList
      · simp [hr, (hmemrepos r).mp hr]
      · have hnl : r ∉ repoList := fun hc => hr ((hmemrepos r).mpr hc)
        simp [hr, hnl]

/-- C7 witness: repositories `[2, 3]` against existing stacks for `1` and
`2`, through `C7_updateRepositories`: repository 1 is disposed, repository 2
keeps its stack, repository 3 gets exactly one new stack. -/
theorem C7_updateRepositories_witness :
    ∃ stacks2 subs2 counter2 evs,
      UpdateRepos.updateRepositories [2, 3] [(1, 10), (2, 11)] [(1, 20), (2, 21)] 12 =
        some (stacks2, subs2, counter2, evs) ∧
      (∀ r, (stacks2.lookup r).isSome ↔ r ∈ [2, 3]) ∧
      (stacks2.map Prod.fst).Nodup ∧
      (∀ r s, List.lookup r [(1, 10), (2, 11)] = some s → r ∈ [2, 3] →
          stacks2.lookup r = some s) ∧
      (∀ r, (∃ sid, UpdateRepos.UREvent.disposeStack r sid ∈ evs) ↔
          ((List.lookup r [(1, 10), (2, 11)]).isSome ∧ r ∉ [2, 3])) ∧
      (∀ r, (∃ i, UpdateRepos.UREvent.disposeSubscriptions r i ∈ evs) ↔
          ((List.lookup r [(1, 10), (2, 11)]).isSome ∧ r ∉ [2, 3])) ∧
      (∀ r, evs.countP (UpdateRepos.isCreateFor r) =
          if r ∈ [2, 3] ∧ (List.lookup r [(1, 10), (2, 11)]).isNone then 1 else 0) :=
  C7_updateRepositories [2, 3] [(1, 10), (2, 11)] [(1, 20), (2, 21)] 12
    (by decide) (by decide)
